import Mathlib

/-!
Shallow embedding of promptlab's concurrent test-execution engine and
response-matching subsystem (src/promptlab/matching.py, config.py,
models.py, runner.py), with theorems settling the frozen claims.

Conventions of the embedding:
* Python `str` is Lean `String`; character-level scanning uses `List Char`.
* Python dicts are association lists `List (String × String)`; `dictGet`
  returns the value of the first binding (dict keys are unique in Python,
  carried here as a `Nodup` hypothesis where it matters), and
  `dictUpdate` mirrors `dict.update`: existing keys are overwritten in
  place, new keys are appended.
* Fallible Python code returns `Except PyErr _`; a `PyErr` carries the
  exception's type name and its message, mirroring
  `f"{type(error).__name__}: {str(error)}"`.
* External collaborators (the litellm transport, the `re` regex engine)
  are opaque oracles passed in as function-valued structures; theorems
  quantify over their behaviour.
* Python `\w` is modelled as ASCII alphanumeric or underscore, and
  `str.lower`/`str.upper` as ASCII case mapping.
-/

/-- Python `str.strip()` whitespace: space, tab, newline, carriage return,
vertical tab, form feed. -/
def pyWhitespace (c : Char) : Bool :=
  c == ' ' || c == '\t' || c == '\n' || c == '\r' ||
    c == Char.ofNat 11 || c == Char.ofNat 12

/-- Python `str.strip()` on a character list: drop leading and trailing
whitespace. -/
def pyStrip (l : List Char) : List Char :=
  ((l.dropWhile pyWhitespace).reverse.dropWhile pyWhitespace).reverse

/-- Python `str.lower()` (ASCII). -/
def pyLower (l : List Char) : List Char := l.map Char.toLower

/-- Python `str.upper()` (ASCII). -/
def pyUpper (l : List Char) : List Char := l.map Char.toUpper

/-- Normalisation used by the exact/contains/starts_with matchers:
`s.strip().lower()`, packaged as a `String`. -/
def pyNorm (s : String) : String := String.mk (pyLower (pyStrip s.data))

/-- Python `s.startswith(p)` on character lists: `p` is a prefix of `s`. -/
def leadsWith : List Char → List Char → Bool
  | _, [] => true
  | [], _ :: _ => false
  | c :: cs, p :: ps => c == p && leadsWith cs ps

/-- Python `pat in s` (substring test) on character lists. -/
def occursIn (pat : List Char) : List Char → Bool
  | [] => leadsWith [] pat
  | c :: cs => leadsWith (c :: cs) pat || occursIn pat cs

/-- Python dict lookup on an association list: value of the first binding. -/
def dictGet (d : List (String × String)) (k : String) : Option String :=
  (d.find? (fun p => p.1 == k)).map (fun p => p.2)

/-- One step of Python `dict.update`: overwrite the key's binding if present,
append it otherwise. -/
def dictInsert (d : List (String × String)) (k v : String) :
    List (String × String) :=
  if d.any (fun p => p.1 == k) then
    d.map (fun p => if p.1 == k then (k, v) else p)
  else d ++ [(k, v)]

/-- Python `d.update(e)` as a pure function: fold `dictInsert` over `e`. -/
def dictUpdate (d e : List (String × String)) : List (String × String) :=
  e.foldl (fun acc p => dictInsert acc p.1 p.2) d

/-- A Python exception: the exception type's name and `str(e)`. -/
structure PyErr where
  ename : String
  msg : String
  deriving DecidableEq, Repr

/-- matching.py `MatchResult`: result of a match operation. -/
structure MatchResult where
  matched : Bool
  mode : String
  details : Option String := none
  deriving DecidableEq, Repr

/-- Flags of Python's `re` module passed by `_check_regex_match`. -/
inductive RegexFlag where
  | IGNORECASE
  | MULTILINE
  deriving DecidableEq, Repr

/-- The `re` regex engine as an opaque collaborator. `search pat s flags`
returns `.error msg` for a pattern that fails to compile (`re.error`),
`.ok none` when the unanchored search finds no match, and
`.ok (some g)` with the matched substring `g` (`match.group()`). -/
structure RegexEngine where
  search : String → String → List RegexFlag → Except String (Option String)

/-- The litellm judge-model collaborator used by `_check_semantic_match`.
`available = false` models `import litellm` raising `ImportError`;
`complete model prompt` models `litellm.completion(...)` returning the
completion's message content, or raising. -/
structure LLMJudge where
  available : Bool
  complete : String → String → Except PyErr String

/-- matching.py `_check_exact_match`: case-insensitive equality after
stripping both sides. -/
def _check_exact_match (response expected : String) : MatchResult :=
  { matched := pyLower (pyStrip response.data) == pyLower (pyStrip expected.data),
    mode := "exact" }

/-- matching.py `_check_contains_match`: stripped lowercased `expected`
occurs in stripped lowercased `response`. -/
def _check_contains_match (response expected : String) : MatchResult :=
  { matched := occursIn (pyLower (pyStrip expected.data)) (pyLower (pyStrip response.data)),
    mode := "contains" }

/-- matching.py `_check_starts_with_match`: stripped lowercased `response`
starts with stripped lowercased `expected`. -/
def _check_starts_with_match (response expected : String) : MatchResult :=
  { matched := leadsWith (pyLower (pyStrip response.data)) (pyLower (pyStrip expected.data)),
    mode := "starts_with" }

/-- matching.py `_check_regex_match`: search `expected` as a pattern against
the raw `response` with `re.IGNORECASE | re.MULTILINE`; an `re.error` is
caught and reported as a failed match. -/
def _check_regex_match (rx : RegexEngine) (response expected : String) :
    MatchResult :=
  match rx.search expected response [RegexFlag.IGNORECASE, RegexFlag.MULTILINE] with
  | .ok (some g) =>
      { matched := true, mode := "regex", details := some ("Matched: '" ++ g ++ "'") }
  | .ok none =>
      { matched := false, mode := "regex", details := some "No match found" }
  | .error e =>
      { matched := false, mode := "regex",
        details := some ("Invalid regex pattern: " ++ e) }

/-- The judgment prompt `_check_semantic_match` builds (f-string of
matching.py lines 74-84). -/
def semanticPrompt (expected response : String) : String :=
  "Compare these two responses and determine if they convey the same meaning or intent.\n\nExpected: "
    ++ expected ++ "\nActual: " ++ response ++
    "\n\nRespond with only \"YES\" if they match semantically, or \"NO\" if they don't match. Consider:\n- Similar meanings expressed differently\n- Equivalent information presented in different formats\n- Minor variations in wording that don't change the core intent\n\nAnswer: "

/-- matching.py `_check_semantic_match`: ask the judge model whether the two
texts match; `if not model` (None or empty) falls back to `"gpt-4o"`; an
unavailable litellm or a raised call error is converted into a failed
`MatchResult` with a detail, never propagated. -/
def _check_semantic_match (llm : LLMJudge) (response expected : String)
    (model : Option String) : MatchResult :=
  if !llm.available then
    { matched := false, mode := "semantic", details := some "litellm not available" }
  else
    let m := match model with
      | none => "gpt-4o"
      | some s => if s = "" then "gpt-4o" else s
    match llm.complete m (semanticPrompt expected response) with
    | .error e =>
        { matched := false, mode := "semantic",
          details := some ("Error in semantic matching: " ++ e.msg) }
    | .ok content =>
        let llm_response := String.mk (pyUpper (pyStrip content.data))
        { matched := llm_response == "YES", mode := "semantic",
          details := some ("LLM evaluation (" ++ m ++ "): " ++ llm_response) }

/-- matching.py `check_match`: dispatch on the mode string; an unrecognized
mode raises `ValueError` (here: returns `.error`). -/
def check_match (llm : LLMJudge) (rx : RegexEngine)
    (response expected mode : String) (model : Option String) :
    Except PyErr MatchResult :=
  if mode = "exact" then .ok (_check_exact_match response expected)
  else if mode = "contains" then .ok (_check_contains_match response expected)
  else if mode = "starts_with" then .ok (_check_starts_with_match response expected)
  else if mode = "regex" then .ok (_check_regex_match rx response expected)
  else if mode = "semantic" then .ok (_check_semantic_match llm response expected model)
  else .error { ename := "ValueError", msg := "Unknown match mode: " ++ mode }

/-- Python regex `\w` (modelled as ASCII): alphanumeric or underscore. -/
def isWordChar (c : Char) : Bool := c.isAlphanum || c == '_'

/-- One attempted match of the pattern `\{\{(\w+)\}\}` at the head of the
list: two opening braces, a nonempty maximal run of word characters, two
closing braces. Returns the captured name and the rest of the input. Since
a word character is never a closing brace, taking the maximal run is
exactly the regex's greedy `\w+`. -/
def tryParseVar (l : List Char) : Option (String × List Char) :=
  match l with
  | c1 :: c2 :: rest =>
    if c1 = '{' ∧ c2 = '{' then
      match rest.dropWhile isWordChar with
      | d1 :: d2 :: tail =>
        if d1 = '}' ∧ d2 = '}' ∧ rest.takeWhile isWordChar ≠ [] then
          some (String.mk (rest.takeWhile isWordChar), tail)
        else none
      | _ => none
    else none
  | _ => none

theorem tryParseVar_shrink {l : List Char} {p : String × List Char}
    (h : tryParseVar l = some p) : p.2.length < l.length := by
  unfold tryParseVar at h
  split at h
  next c1 c2 rest =>
    split at h
    · split at h
      next d1 d2 tail heq =>
        split at h
        · cases h
          have h1 : (rest.dropWhile isWordChar).length ≤ rest.length :=
            (List.dropWhile_sublist isWordChar).length_le
          rw [heq] at h1
          simp only [List.length_cons] at h1 ⊢
          omega
        · cases h
      next => cases h
    · cases h
  next => cases h

/-- Structural engine of `findVars`, fueled so that the kernel can evaluate
it; each scan step consumes at least one character, so `fuel = l.length`
is always enough (`findVarsAux_congr`). -/
def findVarsAux : Nat → List Char → List String
  | 0, _ => []
  | _, [] => []
  | fuel + 1, c :: cs =>
    match tryParseVar (c :: cs) with
    | some p => p.1 :: findVarsAux fuel p.2
    | none => findVarsAux fuel cs

/-- config.py `re.findall(r'\{\{(\w+)\}\}', template)`: the captured names of
the non-overlapping leftmost matches, scanning left to right and advancing
by one character where no match starts (as the regex engine does). -/
def findVars (l : List Char) : List String := findVarsAux l.length l

theorem findVarsAux_nil (n : Nat) : findVarsAux n [] = [] := by
  cases n <;> rfl

theorem findVarsAux_congr :
    ∀ (n m : Nat) (l : List Char), l.length ≤ n → l.length ≤ m →
      findVarsAux n l = findVarsAux m l := by
  intro n
  induction n with
  | zero =>
    intro m l hn _
    have : l = [] := List.length_eq_zero.mp (Nat.le_zero.mp hn)
    subst this
    rw [findVarsAux_nil, findVarsAux_nil]
  | succ n ih =>
    intro m l hn hm
    rcases l with _ | ⟨c, cs⟩
    · rw [findVarsAux_nil, findVarsAux_nil]
    · rcases m with _ | m
      · simp at hm
      · show (match tryParseVar (c :: cs) with
            | some p => p.1 :: findVarsAux n p.2
            | none => findVarsAux n cs) =
          (match tryParseVar (c :: cs) with
            | some p => p.1 :: findVarsAux m p.2
            | none => findVarsAux m cs)
        rcases htp : tryParseVar (c :: cs) with _ | p
        · simp only [List.length_cons] at hn hm
          show findVarsAux n cs = findVarsAux m cs
          exact ih m cs (by omega) (by omega)
        · have hlt := tryParseVar_shrink htp
          simp only [List.length_cons] at hn hm hlt
          show p.1 :: findVarsAux n p.2 = p.1 :: findVarsAux m p.2
          exact congrArg _ (ih m p.2 (by omega) (by omega))

theorem findVars_nil : findVars [] = [] := rfl

theorem findVars_cons_some {c : Char} {cs : List Char} {p : String × List Char}
    (h : tryParseVar (c :: cs) = some p) :
    findVars (c :: cs) = p.1 :: findVars p.2 := by
  show findVarsAux (cs.length + 1) (c :: cs) = _
  have hlt := tryParseVar_shrink h
  simp only [List.length_cons] at hlt
  show (match tryParseVar (c :: cs) with
      | some p => p.1 :: findVarsAux cs.length p.2
      | none => findVarsAux cs.length cs) = _
  rw [h]
  exact congrArg _ (findVarsAux_congr _ _ _ (by omega) (by omega))

theorem findVars_cons_none {c : Char} {cs : List Char}
    (h : tryParseVar (c :: cs) = none) :
    findVars (c :: cs) = findVars cs := by
  show findVarsAux (cs.length + 1) (c :: cs) = _
  show (match tryParseVar (c :: cs) with
      | some p => p.1 :: findVarsAux cs.length p.2
      | none => findVarsAux cs.length cs) = _
  rw [h]
  rfl

/-- Structural engine of `replaceAll`, fueled so that the kernel can
evaluate it; each step consumes at least one character of `s`. -/
def replaceAllAux (pat rep : List Char) : Nat → List Char → List Char
  | 0, s => s
  | _, [] => []
  | fuel + 1, c :: cs =>
    if pat ≠ [] ∧ leadsWith (c :: cs) pat then
      rep ++ replaceAllAux pat rep fuel ((c :: cs).drop pat.length)
    else c :: replaceAllAux pat rep fuel cs

/-- Python `str.replace(pat, rep)`: replace every non-overlapping occurrence,
scanning left to right, not rescanning replacements. (Python's special case
of an empty pattern never arises: every pattern this file passes is a
nonempty placeholder.) -/
def replaceAll (s pat rep : List Char) : List Char :=
  replaceAllAux pat rep s.length s

theorem replaceAllAux_nil (pat rep : List Char) (n : Nat) :
    replaceAllAux pat rep n [] = [] := by
  cases n <;> rfl

theorem replaceAllAux_congr (pat rep : List Char) :
    ∀ (n m : Nat) (s : List Char), s.length ≤ n → s.length ≤ m →
      replaceAllAux pat rep n s = replaceAllAux pat rep m s := by
  intro n
  induction n with
  | zero =>
    intro m s hn _
    have : s = [] := List.length_eq_zero.mp (Nat.le_zero.mp hn)
    subst this
    rw [replaceAllAux_nil, replaceAllAux_nil]
  | succ n ih =>
    intro m s hn hm
    rcases s with _ | ⟨c, cs⟩
    · rw [replaceAllAux_nil, replaceAllAux_nil]
    · rcases m with _ | m
      · simp at hm
      · show (if pat ≠ [] ∧ leadsWith (c :: cs) pat then
            rep ++ replaceAllAux pat rep n ((c :: cs).drop pat.length)
          else c :: replaceAllAux pat rep n cs) =
          (if pat ≠ [] ∧ leadsWith (c :: cs) pat then
            rep ++ replaceAllAux pat rep m ((c :: cs).drop pat.length)
          else c :: replaceAllAux pat rep m cs)
        simp only [List.length_cons] at hn hm
        split
        next hcond =>
          have hp : pat.length ≥ 1 := by
            rcases pat with _ | ⟨q, qs⟩
            · exact absurd rfl hcond.1
            · simp
          have hdl : ((c :: cs).drop pat.length).length ≤ cs.length := by
            simp only [List.length_drop, List.length_cons]
            omega
          exact congrArg _ (ih m _ (by omega) (by omega))
        next =>
          exact congrArg _ (ih m cs (by omega) (by omega))

theorem replaceAll_nil (pat rep : List Char) : replaceAll [] pat rep = [] := rfl

theorem replaceAll_pos {c : Char} {cs pat : List Char} (rep : List Char)
    (hpat : pat ≠ []) (hl : leadsWith (c :: cs) pat = true) :
    replaceAll (c :: cs) pat rep =
      rep ++ replaceAll ((c :: cs).drop pat.length) pat rep := by
  have hp : pat.length ≥ 1 := by
    rcases pat with _ | ⟨q, qs⟩
    · exact absurd rfl hpat
    · simp
  show (if pat ≠ [] ∧ leadsWith (c :: cs) pat then
      rep ++ replaceAllAux pat rep cs.length ((c :: cs).drop pat.length)
    else c :: replaceAllAux pat rep cs.length cs) = _
  rw [if_pos ⟨hpat, hl⟩]
  refine congrArg _ (replaceAllAux_congr pat rep _ _ _ ?_ ?_) <;>
    simp only [List.length_drop, List.length_cons] <;> omega

theorem replaceAll_neg {c : Char} {cs pat : List Char} (rep : List Char)
    (h : ¬(pat ≠ [] ∧ leadsWith (c :: cs) pat = true)) :
    replaceAll (c :: cs) pat rep = c :: replaceAll cs pat rep := by
  show (if pat ≠ [] ∧ leadsWith (c :: cs) pat then
      rep ++ replaceAllAux pat rep cs.length ((c :: cs).drop pat.length)
    else c :: replaceAllAux pat rep cs.length cs) = _
  rw [if_neg h]
  rfl

/-- The literal placeholder text for a variable, `f"{{{{{var_name}}}}}"` in
the source: two opening braces, the name, two closing braces. -/
def phChars (v : String) : List Char := '{' :: '{' :: (v.data ++ ['}', '}'])

/-- The message of the `ValueError` raised for an unresolved placeholder. -/
def mveMsg (v : String) : String := "Variable '" ++ v ++ "' not found in inputs"

/-- The loop of config.py `render_prompt`: for each found variable name in
scan order, fail on a missing key, else replace every occurrence of its
placeholder in the accumulated result. -/
def renderLoop (vars : List (String × String)) :
    List String → List Char → Except PyErr (List Char)
  | [], result => .ok result
  | v :: rest, result =>
    match dictGet vars v with
    | none => .error { ename := "ValueError", msg := mveMsg v }
    | some value => renderLoop vars rest (replaceAll result (phChars v) value.data)

/-- config.py `render_prompt`: find all `{{var}}` placeholders in the
template, then substitute them one variable at a time (values are already
strings in this embedding, mirroring `str(variables[var_name])`). -/
def render_prompt (template : String) (vars : List (String × String)) :
    Except PyErr String :=
  (renderLoop vars (findVars template.data) template.data).map String.mk

/-- config.py `TestCase`. The source field `match` is a Lean keyword and is
called `matchMode` here; `parameters or {}` is the `[]` default. -/
structure TestCase where
  inputs : List (String × String)
  expected : String
  matchMode : Option String := none
  parameters : List (String × String) := []
  deriving DecidableEq, Repr

/-- config.py `PromptConfig` (the source field `match` is `matchMode` here).
The constructor's validation (at least one test case, each with inputs and
expected) happens at parse time; claims about it carry the invariant as a
hypothesis. -/
structure PromptConfig where
  name : String
  prompt : String
  description : Option String := none
  model : String := "gpt-4o"
  system : Option String := none
  matchMode : String := "exact"
  parameters : List (String × String) := []
  test_cases : List TestCase := []
  deriving DecidableEq, Repr

/-- models.py `TestResult`. The monetary `cost` (a Python float) is
abstracted to an optional natural number supplied by the cost oracle; no
claim concerns its value. -/
structure TestResult where
  test_case_idx : Nat
  model : String
  inputs : List (String × String)
  expected : String
  response : Option String := none
  tokens_in : Option Nat := none
  tokens_out : Option Nat := none
  cost : Option Nat := none
  latency_ms : Option Nat := none
  error : Option String := none
  match_result : Option MatchResult := none
  deriving DecidableEq, Repr

/-- Python truthiness of the optional error string (`self.error`). -/
def errTruthy : Option String → Bool
  | none => false
  | some s => !(s == "")

/-- models.py `TestResult.matches` property: undefined when there is no
response, a truthy error, or no match evaluation; else the embedded flag. -/
def TestResult.derivedMatches (r : TestResult) : Option Bool :=
  match r.response, r.match_result with
  | some _, some mr => if errTruthy r.error then none else some mr.matched
  | _, _ => none

/-- Outcome of one awaited `litellm.acompletion` call, as observed by the
unit after `asyncio.wait_for`: a response (content, token usage, the
best-effort cost figure and the measured wall-clock latency), the
backstop's `asyncio.TimeoutError`, or any other raised exception. -/
inductive CallOutcome where
  | ok (content : String) (tokens_in tokens_out : Option Nat)
      (cost : Option Nat) (latency_ms : Nat)
  | timedOut
  | raised (e : PyErr)
  deriving DecidableEq, Repr

/-- The model-invocation transport as an opaque collaborator.
`call model messages timeout backstop params` is
`asyncio.wait_for(acompletion(model, messages, timeout, **params), backstop)`:
the fourth argument records the outer hard deadline the call is wrapped in. -/
structure ModelAPI where
  call : String → List (String × String) → Nat → Nat → List (String × String) →
    CallOutcome

/-- runner.py `PromptRunner.__init__` settings. `max_concurrent` only bounds
how many units are in flight at once; in this embedding the interleaving is
captured by the completion schedule passed to `run_all`. -/
structure PromptRunner where
  max_concurrent : Nat := 10
  timeout : Nat := 30
  deriving DecidableEq, Repr

/-- runner.py `PromptRunner._format_api_error`: credential hints for
authentication-looking failures, else `f"{type(error).__name__}: {error}"`. -/
def _format_api_error (e : PyErr) (model : String) : String :=
  let error_str := pyLower e.msg.data
  if occursIn ("authentication".data) error_str
      || occursIn ("api key".data) error_str
      || occursIn ("unauthorized".data) error_str then
    if leadsWith model.data ("gpt-".data) || leadsWith model.data ("openai/".data) then
      "Authentication failed: Set OPENAI_API_KEY environment variable. Original error: " ++ e.msg
    else if leadsWith model.data ("claude-".data) || leadsWith model.data ("anthropic/".data) then
      "Authentication failed: Set ANTHROPIC_API_KEY environment variable. Original error: " ++ e.msg
    else if leadsWith model.data ("gemini".data) || leadsWith model.data ("google/".data) then
      "Authentication failed: Set GOOGLE_API_KEY environment variable. Original error: " ++ e.msg
    else if leadsWith model.data ("command".data) || leadsWith model.data ("cohere/".data) then
      "Authentication failed: Set COHERE_API_KEY environment variable. Original error: " ++ e.msg
    else
      "Authentication failed: Check your API key for model " ++ model ++ ". Original error: " ++ e.msg
  else e.ename ++ ": " ++ e.msg

/-- runner.py line 120, `test_case.match or config.match`: Python `or` takes
the config default when the per-test value is None or the empty string. -/
def effectiveMatchMode (config : PromptConfig) (tc : TestCase) : String :=
  match tc.matchMode with
  | none => config.matchMode
  | some m => if m = "" then config.matchMode else m

/-- runner.py lines 74-77: optional system preamble (Python truthiness: a
None or empty system string adds no message), then the rendered user
prompt. -/
def buildMessages (config : PromptConfig) (rendered : String) :
    List (String × String) :=
  (match config.system with
   | some s => if s = "" then [] else [("system", s)]
   | none => []) ++ [("user", rendered)]

/-- A failure-path `TestResult`: index, model, the test case's inputs and
expected value, and an error string; no response, no match result. -/
def errorResult (idx : Nat) (model : String) (tc : TestCase) (msg : String) :
    TestResult :=
  { test_case_idx := idx, model := model, inputs := tc.inputs,
    expected := tc.expected, error := some msg }

/-- What `_run_single_test` does with the awaited call outcome: the backstop
timeout becomes the `"Timeout"` error result, any other exception is
formatted, and a response is match-evaluated (the semantic mode receives
the model under test as judge, every other mode receives None; the
`asyncio.to_thread` offload does not change the computed value). An
unknown-mode `ValueError` from `check_match` is raised inside the unit's
`try` block and caught by its generic `except Exception` handler. -/
def handleOutcome (llm : LLMJudge) (rx : RegexEngine) (config : PromptConfig)
    (model : String) (idx : Nat) (tc : TestCase) (o : CallOutcome) : TestResult :=
  match o with
  | .timedOut => errorResult idx model tc "Timeout"
  | .raised e => errorResult idx model tc (_format_api_error e model)
  | .ok content ti tOut cost lat =>
    let match_mode := effectiveMatchMode config tc
    let cm := if match_mode = "semantic"
      then check_match llm rx content tc.expected match_mode (some model)
      else check_match llm rx content tc.expected match_mode none
    match cm with
    | .error e => errorResult idx model tc (_format_api_error e model)
    | .ok mr =>
      { test_case_idx := idx, model := model, inputs := tc.inputs,
        expected := tc.expected, response := some content, tokens_in := ti,
        tokens_out := tOut, cost := cost, latency_ms := some lat,
        match_result := some mr }

/-- runner.py `PromptRunner._run_single_test`: render the prompt (a
rendering `ValueError` is caught by the unit's own handler), then invoke
the transport with the per-call timeout and the `timeout + 5` backstop and
the merged parameters, then handle the outcome. Every path returns a
`TestResult`; no exception escapes the unit. -/
def _run_single_test (llm : LLMJudge) (rx : RegexEngine) (api : ModelAPI)
    (r : PromptRunner) (config : PromptConfig) (model : String) (idx : Nat)
    (tc : TestCase) : TestResult :=
  match render_prompt config.prompt tc.inputs with
  | .error e => errorResult idx model tc (_format_api_error e model)
  | .ok rendered =>
    handleOutcome llm rx config model idx tc
      (api.call model (buildMessages config rendered) r.timeout (r.timeout + 5)
        (dictUpdate config.parameters tc.parameters))

/-- runner.py `run_all` lines 29-32: the task list, model as the outer loop,
test-case index as the inner loop. -/
def unitTasks (llm : LLMJudge) (rx : RegexEngine) (api : ModelAPI)
    (r : PromptRunner) (config : PromptConfig) (models : List String) :
    List TestResult :=
  (models.map (fun model =>
    config.test_cases.enum.map
      (fun p => _run_single_test llm rx api r config model p.1 p.2))).flatten

/-- `asyncio.gather` under an arbitrary completion order: `sched` lists the
task indices in the order the units finish; each finishing unit stores its
result in its own slot, and the slots are read out positionally. When
`sched` is a permutation of the task indices this is exactly `gather`'s
positional result list. -/
def gatherSched (tasks : List TestResult) (sched : List Nat) : List TestResult :=
  (sched.foldl (fun acc i => acc.set i (tasks.get? i))
    (List.replicate tasks.length (none : Option TestResult))).reduceOption

/-- runner.py `PromptRunner.run_all`. The source's conversion of gathered
exceptions to error results (lines 36-54) is unreachable here because
`_run_single_test` already returns a `TestResult` on every exception path
(it catches `asyncio.TimeoutError` and `Exception`); under
`return_exceptions=True` the gathered list is then read back positionally
in the same model-outer, index-inner iteration, which is the identity on
this task list. -/
def run_all (llm : LLMJudge) (rx : RegexEngine) (api : ModelAPI)
    (r : PromptRunner) (config : PromptConfig) (models : List String)
    (sched : List Nat) : List TestResult :=
  gatherSched (unitTasks llm rx api r config models) sched

theorem leadsWith_iff {p s : List Char} : leadsWith s p = true ↔ p <+: s := by
  induction p generalizing s with
  | nil => cases s <;> simp [leadsWith, List.nil_prefix]
  | cons q qs ih =>
    cases s with
    | nil => simp [leadsWith]
    | cons c cs =>
      simp only [leadsWith, Bool.and_eq_true, beq_iff_eq, ih,
        List.cons_prefix_cons]
      constructor
      · rintro ⟨h1, h2⟩
        exact ⟨h1.symm, h2⟩
      · rintro ⟨h1, h2⟩
        exact ⟨h1.symm, h2⟩

theorem occursIn_iff {pat s : List Char} : occursIn pat s = true ↔ pat <:+: s := by
  induction s with
  | nil =>
    cases pat <;> simp [occursIn, leadsWith]
  | cons c cs ih =>
    simp [occursIn, leadsWith_iff, ih, List.infix_cons_iff]

/-- C6: The exact, contains and starts_with modes of the evaluator are
case-insensitive and trim leading/trailing whitespace from both strings
before comparing: exact is equality of the trimmed lowercased strings,
contains tests whether trimmed expected occurs anywhere in trimmed
response, and starts_with tests whether trimmed response begins with
trimmed expected; `check_match` dispatches each of the three mode strings
to the corresponding checker. -/
theorem c6_plain_modes_trim_case_insensitive (llm : LLMJudge) (rx : RegexEngine)
    (response expected : String) (model : Option String) :
    check_match llm rx response expected "exact" model =
        .ok (_check_exact_match response expected)
    ∧ ((_check_exact_match response expected).matched = true ↔
        pyNorm response = pyNorm expected)
    ∧ check_match llm rx response expected "contains" model =
        .ok (_check_contains_match response expected)
    ∧ ((_check_contains_match response expected).matched = true ↔
        (pyNorm expected).data <:+: (pyNorm response).data)
    ∧ check_match llm rx response expected "starts_with" model =
        .ok (_check_starts_with_match response expected)
    ∧ ((_check_starts_with_match response expected).matched = true ↔
        (pyNorm expected).data <+: (pyNorm response).data) := by
  refine ⟨by simp [check_match], ?_, by simp [check_match], ?_, by simp [check_match], ?_⟩
  · simp [_check_exact_match, pyNorm, String.ext_iff]
  · simp [_check_contains_match, pyNorm, occursIn_iff]
  · simp [_check_starts_with_match, pyNorm, leadsWith_iff]

/-- C5: Regex-mode evaluation passes `expected` as the pattern and the raw
(untrimmed) `response` as the text to the engine's unanchored search with
the case-insensitive and multiline flags; a found match yields
matched=true with a detail naming the matched substring, no match yields
matched=false, and a pattern that fails to compile is caught and yields
matched=false with a detail describing the pattern error instead of a
raised failure (the checker returns a plain `MatchResult` on every engine
outcome). -/
theorem c5_regex_mode (llm : LLMJudge) (rx : RegexEngine)
    (response expected g e : String) (model : Option String) :
    check_match llm rx response expected "regex" model =
        .ok (_check_regex_match rx response expected)
    ∧ (rx.search expected response [RegexFlag.IGNORECASE, RegexFlag.MULTILINE] =
          .ok (some g) →
        _check_regex_match rx response expected =
          { matched := true, mode := "regex",
            details := some ("Matched: '" ++ g ++ "'") })
    ∧ (rx.search expected response [RegexFlag.IGNORECASE, RegexFlag.MULTILINE] =
          .ok none →
        _check_regex_match rx response expected =
          { matched := false, mode := "regex", details := some "No match found" })
    ∧ (rx.search expected response [RegexFlag.IGNORECASE, RegexFlag.MULTILINE] =
          .error e →
        _check_regex_match rx response expected =
          { matched := false, mode := "regex",
            details := some ("Invalid regex pattern: " ++ e) }) := by
  refine ⟨by simp [check_match], ?_, ?_, ?_⟩ <;>
    intro h <;> simp [_check_regex_match, h]

/-- Witness for C5 at the spec's own example: an engine that reports the
match `$25.99` for the dollar-amount pattern makes regex mode report
matched=true with the matched substring in the detail. -/
theorem c5_regex_mode_witness :
    _check_regex_match ⟨fun _ _ _ => .ok (some "$25.99")⟩
        "The price is $25.99" "\\$\\d+\\.\\d+" =
      { matched := true, mode := "regex", details := some "Matched: '$25.99'" } :=
  (c5_regex_mode ⟨false, fun _ _ => .error ⟨"", ""⟩⟩
    ⟨fun _ _ _ => .ok (some "$25.99")⟩
    "The price is $25.99" "\\$\\d+\\.\\d+" "$25.99" "" none).2.1 rfl

/-- C4: Semantic-mode evaluation asks the judge and reports matched=true
exactly when the judge's answer, trimmed and uppercased, equals YES and
matched=false for any other answer; a missing judge model falls back to
the fixed default `gpt-4o`; an unavailable litellm dependency or a raised
call error is caught and converted into a matched=false result with a
detail message (the checker returns a plain `MatchResult` on every
collaborator outcome). -/
theorem c4_semantic_mode (llm : LLMJudge) (rx : RegexEngine)
    (response expected ans m : String) (e : PyErr) (model : Option String) :
    check_match llm rx response expected "semantic" model =
        .ok (_check_semantic_match llm response expected model)
    ∧ _check_semantic_match llm response expected none =
        _check_semantic_match llm response expected (some "gpt-4o")
    ∧ (llm.available = false →
        _check_semantic_match llm response expected model =
          { matched := false, mode := "semantic",
            details := some "litellm not available" })
    ∧ (llm.available = true → m ≠ "" →
        llm.complete m (semanticPrompt expected response) = .ok ans →
        _check_semantic_match llm response expected (some m) =
          { matched := String.mk (pyUpper (pyStrip ans.data)) == "YES",
            mode := "semantic",
            details := some ("LLM evaluation (" ++ m ++ "): "
              ++ String.mk (pyUpper (pyStrip ans.data))) })
    ∧ (llm.available = true → m ≠ "" →
        llm.complete m (semanticPrompt expected response) = .error e →
        _check_semantic_match llm response expected (some m) =
          { matched := false, mode := "semantic",
            details := some ("Error in semantic matching: " ++ e.msg) }) := by
  refine ⟨by simp [check_match], ?_, ?_, ?_, ?_⟩
  · simp [_check_semantic_match]
  · intro h
    simp [_check_semantic_match, h]
  · intro h hm hc
    simp [_check_semantic_match, h, hm, hc]
  · intro h hm hc
    simp [_check_semantic_match, h, hm, hc]

/-- Witness for C4: a judge that answers with whitespace and lowercase
(` yes `) still matches (trim + uppercase gives YES), and the detail
carries the judge's normalised verdict. -/
theorem c4_semantic_mode_witness :
    _check_semantic_match ⟨true, fun _ _ => .ok " yes "⟩ "resp" "exp" (some "m1") =
      { matched := true, mode := "semantic",
        details := some "LLM evaluation (m1): YES" } := by
  have h := (c4_semantic_mode ⟨true, fun _ _ => .ok " yes "⟩
    ⟨fun _ _ _ => .ok none⟩ "resp" "exp" " yes " "m1" ⟨"", ""⟩ none).2.2.2.1
    rfl (by decide) rfl
  rw [h]
  rfl

theorem check_match_unknown (llm : LLMJudge) (rx : RegexEngine)
    (response expected mode : String) (model : Option String)
    (h : mode ∉ (["exact", "contains", "starts_with", "regex", "semantic"] :
      List String)) :
    check_match llm rx response expected mode model =
      .error { ename := "ValueError", msg := "Unknown match mode: " ++ mode } := by
  simp only [List.mem_cons, List.not_mem_nil, or_false, not_or] at h
  obtain ⟨h1, h2, h3, h4, h5⟩ := h
  simp [check_match, h1, h2, h3, h4, h5]

/-- C2 (amended): an evaluation requested with a mode string outside the
five recognized values raises an unknown-mode `ValueError` immediately
rather than silently defaulting; but when such a mode is the effective
match mode of a unit inside `run_all`, the error is raised inside the
unit's `try` block and caught by its generic exception handler like any
other per-unit failure, producing an error-bearing `TestResult` (with the
formatted ValueError diagnostic, no response and no match result) instead
of propagating out of the batch run. -/
theorem c2_unknown_mode_raised_then_caught (llm : LLMJudge) (rx : RegexEngine)
    (api : ModelAPI) (r : PromptRunner) (config : PromptConfig)
    (response expected mode : String) (jmodel : Option String) (model : String)
    (idx : Nat) (tc : TestCase) (rendered content : String)
    (ti tOut cost : Option Nat) (lat : Nat) :
    (mode ∉ (["exact", "contains", "starts_with", "regex", "semantic"] :
        List String) →
      check_match llm rx response expected mode jmodel =
        .error { ename := "ValueError", msg := "Unknown match mode: " ++ mode })
    ∧ (render_prompt config.prompt tc.inputs = .ok rendered →
      api.call model (buildMessages config rendered) r.timeout (r.timeout + 5)
          (dictUpdate config.parameters tc.parameters) =
        .ok content ti tOut cost lat →
      effectiveMatchMode config tc ∉
        (["exact", "contains", "starts_with", "regex", "semantic"] : List String) →
      _run_single_test llm rx api r config model idx tc =
        errorResult idx model tc
          (_format_api_error
            { ename := "ValueError",
              msg := "Unknown match mode: " ++ effectiveMatchMode config tc }
            model)) := by
  constructor
  · intro h
    exact check_match_unknown llm rx response expected mode jmodel h
  · intro hrend hcall hmode
    have hsem : effectiveMatchMode config tc ≠ "semantic" := by
      intro hc
      exact hmode (by simp [hc])
    have hcm := check_match_unknown llm rx content tc.expected
      (effectiveMatchMode config tc) none hmode
    simp [_run_single_test, hrend, hcall, handleOutcome, hsem, hcm]

/-- Witness for C2's amended claim: a unit whose config requests the mode
`bogus` and whose model call succeeds ends as an error-bearing TestResult
with the formatted ValueError diagnostic. -/
theorem c2_unknown_mode_witness :
    _run_single_test ⟨false, fun _ _ => .error ⟨"", ""⟩⟩ ⟨fun _ _ _ => .ok none⟩
        ⟨fun _ _ _ _ _ => .ok "hi" none none none 0⟩ ⟨10, 30⟩
        { name := "cfg", prompt := "p", matchMode := "bogus",
          test_cases := [{ inputs := [], expected := "X" }] }
        "m1" 0 { inputs := [], expected := "X" } =
      errorResult 0 "m1" { inputs := [], expected := "X" }
        "ValueError: Unknown match mode: bogus" := by
  have h := (c2_unknown_mode_raised_then_caught
    ⟨false, fun _ _ => .error ⟨"", ""⟩⟩ ⟨fun _ _ _ => .ok none⟩
    ⟨fun _ _ _ _ _ => .ok "hi" none none none 0⟩ ⟨10, 30⟩
    { name := "cfg", prompt := "p", matchMode := "bogus",
      test_cases := [{ inputs := [], expected := "X" }] }
    "" "" "bogus" none "m1" 0 { inputs := [], expected := "X" } "p" "hi"
    none none none 0).2 rfl rfl (by decide)
  rw [h]
  rfl

/-- C2 (counterexample to the claim as stated): the claim says an
unrecognized match mode encountered during `run_all` is not converted into
an error-bearing TestResult at the unit boundary; but running a config
whose match mode is `bogus` with one model and a succeeding call returns a
list whose single entry is exactly such an error-bearing TestResult. -/
theorem c2_counterexample :
    run_all ⟨false, fun _ _ => .error ⟨"", ""⟩⟩ ⟨fun _ _ _ => .ok none⟩
        ⟨fun _ _ _ _ _ => .ok "hi" none none none 0⟩ ⟨10, 30⟩
        { name := "cfg", prompt := "p", matchMode := "bogus",
          test_cases := [{ inputs := [], expected := "X" }] }
        ["m1"] [0] =
      [{ test_case_idx := 0, model := "m1", inputs := [], expected := "X",
         error := some "ValueError: Unknown match mode: bogus" }] := by rfl

theorem find?_map_overwrite_self (k v : String) :
    ∀ g : List (String × String), g.any (fun p => p.1 == k) = true →
      (g.map (fun p => if p.1 == k then (k, v) else p)).find?
        (fun p => p.1 == k) = some (k, v) := by
  intro g
  induction g with
  | nil => simp
  | cons p g' ih =>
    intro hany
    by_cases hpk : (p.1 == k) = true
    · rw [List.map_cons, if_pos hpk]
      rw [List.find?_cons_of_pos (p := fun q : String × String => q.1 == k) _ (by simp)]
    · simp only [List.any_cons, Bool.or_eq_true] at hany
      rw [List.map_cons, if_neg hpk]
      rw [List.find?_cons_of_neg (p := fun q : String × String => q.1 == k) _ hpk]
      exact ih (hany.resolve_left hpk)

theorem find?_map_overwrite_ne (k' v' k : String) (hne : ¬(k' = k)) :
    ∀ g : List (String × String),
      (g.map (fun p => if p.1 == k' then (k', v') else p)).find?
        (fun p => p.1 == k) = g.find? (fun p => p.1 == k) := by
  intro g
  induction g with
  | nil => simp
  | cons p g' ih =>
    by_cases hpk' : (p.1 == k') = true
    · have hpk : ¬(p.1 == k) = true := by
        have hp : p.1 = k' := by simpa using hpk'
        simp [hp, hne]
      rw [List.map_cons, if_pos hpk']
      rw [List.find?_cons_of_neg (p := fun q : String × String => q.1 == k) _ (by simp [hne])]
      rw [List.find?_cons_of_neg (p := fun q : String × String => q.1 == k) _ hpk]
      exact ih
    · rw [List.map_cons, if_neg hpk']
      by_cases hpk : (p.1 == k) = true
      · rw [List.find?_cons_of_pos (p := fun q : String × String => q.1 == k) _ hpk,
          List.find?_cons_of_pos (p := fun q : String × String => q.1 == k) _ hpk]
      · rw [List.find?_cons_of_neg (p := fun q : String × String => q.1 == k) _ hpk,
          List.find?_cons_of_neg (p := fun q : String × String => q.1 == k) _ hpk]
        exact ih

theorem dictGet_dictInsert_self (g : List (String × String)) (k v : String) :
    dictGet (dictInsert g k v) k = some v := by
  unfold dictInsert
  split
  next hany =>
    simp only [dictGet, find?_map_overwrite_self k v g hany, Option.map_some']
  next hany =>
    have hnone : ∀ p ∈ g, ¬(p.1 == k) = true := by
      intro p hp hcontra
      exact hany (List.any_eq_true.mpr ⟨p, hp, hcontra⟩)
    induction g with
    | nil =>
      simp only [dictGet, List.nil_append]
      rw [List.find?_cons_of_pos (p := fun q : String × String => q.1 == k) _ (by simp)]
      rfl
    | cons p g' ih =>
      simp only [dictGet, List.cons_append]
      rw [List.find?_cons_of_neg (p := fun q : String × String => q.1 == k) _ (hnone p (by simp))]
      have hany' : ¬g'.any (fun q => q.1 == k) = true := by
        intro hc
        simp only [List.any_eq_true] at hc
        obtain ⟨q, hq, hqk⟩ := hc
        exact hnone q (by simp [hq]) hqk
      have := ih hany' (fun q hq => hnone q (by simp [hq]))
      simpa [dictGet] using this

theorem dictGet_dictInsert_ne (g : List (String × String)) (k' v' k : String)
    (hne : ¬(k' = k)) :
    dictGet (dictInsert g k' v') k = dictGet g k := by
  unfold dictInsert
  split
  next =>
    simp only [dictGet, find?_map_overwrite_ne k' v' k hne g]
  next hany =>
    induction g with
    | nil =>
      simp only [dictGet, List.nil_append]
      rw [List.find?_cons_of_neg (p := fun q : String × String => q.1 == k) _ (by simp [hne])]
    | cons p g' ih =>
      simp only [dictGet, List.cons_append] at ih ⊢
      by_cases hpk : (p.1 == k) = true
      · rw [List.find?_cons_of_pos (p := fun q : String × String => q.1 == k) _ hpk,
          List.find?_cons_of_pos (p := fun q : String × String => q.1 == k) _ hpk]
      · rw [List.find?_cons_of_neg (p := fun q : String × String => q.1 == k) _ hpk,
          List.find?_cons_of_neg (p := fun q : String × String => q.1 == k) _ hpk]
        exact ih (fun hc => hany (by
          simp only [List.any_cons, Bool.or_eq_true]
          exact Or.inr hc))

theorem dictGet_dictUpdate (g e : List (String × String)) (k : String)
    (h : (e.map Prod.fst).Nodup) :
    dictGet (dictUpdate g e) k =
      (match dictGet e k with
       | some v => some v
       | none => dictGet g k) := by
  induction e generalizing g with
  | nil => simp [dictUpdate, dictGet]
  | cons q e' ih =>
    simp only [List.map_cons, List.nodup_cons] at h
    obtain ⟨hq, hnd⟩ := h
    have step : dictUpdate g (q :: e') = dictUpdate (dictInsert g q.1 q.2) e' := rfl
    rw [step, ih _ hnd]
    by_cases hqk : q.1 = k
    · have he' : dictGet e' k = none := by
        rw [dictGet, Option.map_eq_none', List.find?_eq_none]
        intro p hp hcontra
        have hpq : p.1 = q.1 := by
          have : p.1 = k := by simpa using hcontra
          rw [this, hqk]
        exact hq (hpq ▸ List.mem_map_of_mem Prod.fst hp)
      have hhead : dictGet (q :: e') k = some q.2 := by
        rw [dictGet, List.find?_cons_of_pos (p := fun r : String × String => r.1 == k) _ (by simp [hqk])]
        rfl
      rw [he', hhead, hqk, dictGet_dictInsert_self]
    · have hhead : dictGet (q :: e') k = dictGet e' k := by
        rw [dictGet, List.find?_cons_of_neg (p := fun r : String × String => r.1 == k) _ (by simp [hqk])]
        rfl
      rw [hhead, dictGet_dictInsert_ne g q.1 q.2 k hqk]

/-- C3: The model invocation of every unit is wrapped in a hard backstop
deadline of the configured per-call timeout plus a 5-second buffer (the
transport is consulted with exactly `r.timeout` and `r.timeout + 5`), and
when that backstop elapses the unit's TestResult carries error text
exactly `"Timeout"`, no response and no match result. -/
theorem c3_backstop_timeout (llm : LLMJudge) (rx : RegexEngine) (api : ModelAPI)
    (r : PromptRunner) (config : PromptConfig) (model : String) (idx : Nat)
    (tc : TestCase) (rendered : String)
    (hrend : render_prompt config.prompt tc.inputs = .ok rendered)
    (hcall : api.call model (buildMessages config rendered) r.timeout
      (r.timeout + 5) (dictUpdate config.parameters tc.parameters) = .timedOut) :
    _run_single_test llm rx api r config model idx tc =
      { test_case_idx := idx, model := model, inputs := tc.inputs,
        expected := tc.expected, response := none, tokens_in := none,
        tokens_out := none, cost := none, latency_ms := none,
        error := some "Timeout", match_result := none } := by
  simp [_run_single_test, hrend, hcall, handleOutcome, errorResult]

/-- Witness for C3: a transport that never returns within the backstop
yields the `"Timeout"` error result for the unit. -/
theorem c3_backstop_timeout_witness :
    _run_single_test ⟨false, fun _ _ => .error ⟨"", ""⟩⟩ ⟨fun _ _ _ => .ok none⟩
        ⟨fun _ _ _ _ _ => .timedOut⟩ ⟨10, 30⟩
        { name := "cfg", prompt := "p",
          test_cases := [{ inputs := [], expected := "X" }] }
        "m1" 0 { inputs := [], expected := "X" } =
      { test_case_idx := 0, model := "m1", inputs := [], expected := "X",
        response := none, tokens_in := none, tokens_out := none, cost := none,
        latency_ms := none, error := some "Timeout", match_result := none } :=
  c3_backstop_timeout ⟨false, fun _ _ => .error ⟨"", ""⟩⟩ ⟨fun _ _ _ => .ok none⟩
    ⟨fun _ _ _ _ _ => .timedOut⟩ ⟨10, 30⟩
    { name := "cfg", prompt := "p",
      test_cases := [{ inputs := [], expected := "X" }] }
    "m1" 0 { inputs := [], expected := "X" } "p" rfl rfl

/-- C9: The option set a unit passes to the model call is the merge of the
global parameter map with the per-test-case overrides, built as a new map:
looking up any key in the merged map gives the override's value when the
key is present in the test case's parameters and the global configuration
value otherwise (so a global key absent from the override is preserved);
the configuration's own parameter map is a read-only input of this pure
merge and is left unchanged. -/
theorem c9_parameter_merge (llm : LLMJudge) (rx : RegexEngine) (api : ModelAPI)
    (r : PromptRunner) (config : PromptConfig) (model : String) (idx : Nat)
    (tc : TestCase) (rendered k : String)
    (hnodup : (tc.parameters.map Prod.fst).Nodup)
    (hrend : render_prompt config.prompt tc.inputs = .ok rendered) :
    _run_single_test llm rx api r config model idx tc =
      handleOutcome llm rx config model idx tc
        (api.call model (buildMessages config rendered) r.timeout (r.timeout + 5)
          (dictUpdate config.parameters tc.parameters))
    ∧ dictGet (dictUpdate config.parameters tc.parameters) k =
        (match dictGet tc.parameters k with
         | some v => some v
         | none => dictGet config.parameters k) := by
  constructor
  · simp [_run_single_test, hrend]
  · exact dictGet_dictUpdate config.parameters tc.parameters k hnodup

/-- Witness for C9: with global parameters temperature=0.7, max_tokens=100
and a per-test override temperature=0.2, the merged map keeps the global
max_tokens (looked up here) while the override wins on temperature. -/
theorem c9_parameter_merge_witness :
    dictGet (dictUpdate [("temperature", "0.7"), ("max_tokens", "100")]
        [("temperature", "0.2")]) "max_tokens" = some "100" := by
  have h := (c9_parameter_merge ⟨false, fun _ _ => .error ⟨"", ""⟩⟩
    ⟨fun _ _ _ => .ok none⟩ ⟨fun _ _ _ _ _ => .timedOut⟩ ⟨10, 30⟩
    { name := "cfg", prompt := "p",
      parameters := [("temperature", "0.7"), ("max_tokens", "100")],
      test_cases := [] }
    "m1" 0
    { inputs := [], expected := "X", parameters := [("temperature", "0.2")] }
    "p" "max_tokens" (by decide) rfl).2
  rw [h]
  rfl

/-- C10: When a unit's effective match mode is semantic, the engine passes
the model under test as the judge for that unit's match evaluation (the
embedded match result is the semantic check run with `some model`), while
the evaluator's fixed default judge `gpt-4o` is used only when the
semantic check is invoked with no model. -/
theorem c10_semantic_judge_is_unit_model (llm : LLMJudge) (rx : RegexEngine)
    (api : ModelAPI) (r : PromptRunner) (config : PromptConfig) (model : String)
    (idx : Nat) (tc : TestCase) (rendered content : String)
    (ti tOut cost : Option Nat) (lat : Nat)
    (hrend : render_prompt config.prompt tc.inputs = .ok rendered)
    (hcall : api.call model (buildMessages config rendered) r.timeout
      (r.timeout + 5) (dictUpdate config.parameters tc.parameters) =
      .ok content ti tOut cost lat)
    (hsem : effectiveMatchMode config tc = "semantic") :
    (_run_single_test llm rx api r config model idx tc).match_result =
      some (_check_semantic_match llm content tc.expected (some model))
    ∧ ∀ resp exp : String,
        _check_semantic_match llm resp exp none =
          _check_semantic_match llm resp exp (some "gpt-4o") := by
  constructor
  · simp [_run_single_test, hrend, hcall, handleOutcome, hsem, check_match]
  · intro resp exp
    simp [_check_semantic_match]

/-- Witness for C10: a unit whose test case requests semantic matching has
a match result whose detail names the unit's own model `m1` as judge. -/
theorem c10_semantic_judge_witness :
    (_run_single_test ⟨true, fun _ _ => .ok "YES"⟩ ⟨fun _ _ _ => .ok none⟩
        ⟨fun _ _ _ _ _ => .ok "hi" none none none 0⟩ ⟨10, 30⟩
        { name := "cfg", prompt := "p",
          test_cases :=
            [{ inputs := [], expected := "X", matchMode := some "semantic" }] }
        "m1" 0
        { inputs := [], expected := "X", matchMode := some "semantic" }).match_result =
      some { matched := true, mode := "semantic",
             details := some "LLM evaluation (m1): YES" } := by
  have h := (c10_semantic_judge_is_unit_model ⟨true, fun _ _ => .ok "YES"⟩
    ⟨fun _ _ _ => .ok none⟩ ⟨fun _ _ _ _ _ => .ok "hi" none none none 0⟩
    ⟨10, 30⟩
    { name := "cfg", prompt := "p",
      test_cases :=
        [{ inputs := [], expected := "X", matchMode := some "semantic" }] }
    "m1" 0
    { inputs := [], expected := "X", matchMode := some "semantic" }
    "p" "hi" none none none 0 rfl rfl rfl).1
  rw [h]
  rfl

theorem reduceOption_map_some (l : List TestResult) :
    (l.map some).reduceOption = l := by
  induction l <;> simp_all [List.reduceOption]

theorem foldl_set_length (tasks : List TestResult) :
    ∀ (sched : List Nat) (acc : List (Option TestResult)),
      (sched.foldl (fun acc i => acc.set i (tasks.get? i)) acc).length =
        acc.length := by
  intro sched
  induction sched with
  | nil => intro acc; rfl
  | cons j rest ih =>
    intro acc
    rw [List.foldl_cons, ih, List.length_set]

theorem foldl_set_get_not_mem (tasks : List TestResult) :
    ∀ (sched : List Nat) (acc : List (Option TestResult)) (i : Nat), i ∉ sched →
      (sched.foldl (fun acc i => acc.set i (tasks.get? i)) acc).get? i =
        acc.get? i := by
  intro sched
  induction sched with
  | nil => intro acc i _; rfl
  | cons j rest ih =>
    intro acc i hmem
    have hij : i ≠ j := fun hc => hmem (hc ▸ List.mem_cons_self j rest)
    have hrest : i ∉ rest := fun hc => hmem (List.mem_cons_of_mem j hc)
    rw [List.foldl_cons, ih _ i hrest, List.get?_set_ne _ _ (Ne.symm hij)]

theorem foldl_set_get_mem (tasks : List TestResult) :
    ∀ (sched : List Nat) (acc : List (Option TestResult)) (i : Nat), i ∈ sched →
      i < acc.length →
      (sched.foldl (fun acc i => acc.set i (tasks.get? i)) acc).get? i =
        some (tasks.get? i) := by
  intro sched
  induction sched with
  | nil => intro acc i hmem; cases hmem
  | cons j rest ih =>
    intro acc i hmem hlen
    rw [List.foldl_cons]
    by_cases hir : i ∈ rest
    · exact ih _ i hir (by rw [List.length_set]; exact hlen)
    · have hij : i = j := by
        rcases List.mem_cons.mp hmem with h | h
        · exact h
        · exact absurd h hir
      subst hij
      rw [foldl_set_get_not_mem tasks rest _ i hir]
      exact List.get?_set_eq_of_lt _ hlen

/-- A completion schedule that is a permutation of the task indices fills
every slot with its own task's result, so the gathered list is exactly the
task list in task order: completion order does not affect the output. -/
theorem gatherSched_perm (tasks : List TestResult) (sched : List Nat)
    (hperm : sched.Perm (List.range tasks.length)) :
    gatherSched tasks sched = tasks := by
  unfold gatherSched
  have hfill : (sched.foldl (fun acc i => acc.set i (tasks.get? i))
      (List.replicate tasks.length (none : Option TestResult))) =
      tasks.map some := by
    apply List.ext_get?
    intro i
    by_cases hi : i < tasks.length
    · have hmem : i ∈ sched := hperm.mem_iff.mpr (List.mem_range.mpr hi)
      rw [foldl_set_get_mem tasks sched _ i hmem
        (by rw [List.length_replicate]; exact hi)]
      rw [List.get?_map, List.get?_eq_get hi]
      rfl
    · rw [List.get?_eq_none.mpr, List.get?_eq_none.mpr]
      · rw [List.length_map]; omega
      · rw [foldl_set_length, List.length_replicate]; omega
  rw [hfill, reduceOption_map_some]

theorem unitTasks_length (llm : LLMJudge) (rx : RegexEngine) (api : ModelAPI)
    (r : PromptRunner) (config : PromptConfig) (models : List String) :
    (unitTasks llm rx api r config models).length =
      models.length * config.test_cases.length := by
  unfold unitTasks
  induction models with
  | nil => simp
  | cons m ms ih =>
    simp only [List.map_cons, List.flatten_cons, List.length_append, ih,
      List.length_map, List.enum_length, List.length_cons, Nat.succ_mul]
    omega

theorem unitTasks_get? (llm : LLMJudge) (rx : RegexEngine) (api : ModelAPI)
    (r : PromptRunner) (config : PromptConfig) :
    ∀ (models : List String) (mi ti : Nat) (hm : mi < models.length)
      (ht : ti < config.test_cases.length),
      (unitTasks llm rx api r config models).get?
          (mi * config.test_cases.length + ti) =
        some (_run_single_test llm rx api r config (models.get ⟨mi, hm⟩) ti
          (config.test_cases.get ⟨ti, ht⟩)) := by
  intro models
  induction models with
  | nil =>
    intro mi ti hm
    simp at hm
  | cons m ms ih =>
    intro mi ti hm ht
    have hblock : (config.test_cases.enum.map
        (fun p => _run_single_test llm rx api r config m p.1 p.2)).length =
        config.test_cases.length := by
      rw [List.length_map, List.enum_length]
    cases mi with
    | zero =>
      show ((config.test_cases.enum.map
          (fun p => _run_single_test llm rx api r config m p.1 p.2)) ++
          (unitTasks llm rx api r config ms)).get? (0 * config.test_cases.length + ti) = _
      rw [Nat.zero_mul, Nat.zero_add, List.get?_append (by omega)]
      rw [List.get?_map, List.enum_get?, List.get?_eq_get ht]
      rfl
    | succ mi' =>
      show ((config.test_cases.enum.map
          (fun p => _run_single_test llm rx api r config m p.1 p.2)) ++
          (unitTasks llm rx api r config ms)).get?
          ((mi' + 1) * config.test_cases.length + ti) = _
      rw [Nat.succ_mul]
      rw [List.get?_append_right (by omega)]
      have harith : mi' * config.test_cases.length + config.test_cases.length +
          ti - (config.test_cases.enum.map
            (fun p => _run_single_test llm rx api r config m p.1 p.2)).length =
          mi' * config.test_cases.length + ti := by
        rw [hblock]
        omega
      rw [harith]
      exact ih mi' ti (Nat.lt_of_succ_lt_succ hm) ht

/-- Every result a unit can produce is either error-bearing (an error
string, no response, no match result) or a successful invocation (no
error, a response); this holds on every path of `_run_single_test`. -/
theorem _run_single_test_shape (llm : LLMJudge) (rx : RegexEngine)
    (api : ModelAPI) (r : PromptRunner) (config : PromptConfig) (model : String)
    (idx : Nat) (tc : TestCase) :
    ((_run_single_test llm rx api r config model idx tc).error.isSome = true ∧
      (_run_single_test llm rx api r config model idx tc).response = none ∧
      (_run_single_test llm rx api r config model idx tc).match_result = none)
    ∨ ((_run_single_test llm rx api r config model idx tc).error = none ∧
      (_run_single_test llm rx api r config model idx tc).response.isSome = true) := by
  unfold _run_single_test
  cases hrend : render_prompt config.prompt tc.inputs with
  | error e =>
    left
    simp [errorResult]
  | ok rendered =>
    cases hout : api.call model (buildMessages config rendered) r.timeout
        (r.timeout + 5) (dictUpdate config.parameters tc.parameters) with
    | timedOut => left; simp [handleOutcome, hout, errorResult]
    | raised e => left; simp [handleOutcome, hout, errorResult]
    | ok content ti tOut cost lat =>
      cases hcm : (if effectiveMatchMode config tc = "semantic" then
          check_match llm rx content tc.expected (effectiveMatchMode config tc)
            (some model)
        else
          check_match llm rx content tc.expected (effectiveMatchMode config tc)
            none) with
      | error e =>
        left
        simp [handleOutcome, hout, hcm, errorResult]
      | ok mr =>
        right
        simp [handleOutcome, hout, hcm]

/-- C1: For a configuration with at least one test case, `run_all` under any
completion order (any permutation of the task indices) returns exactly the
model-outer, test-case-index-inner task list: its length is
`models.length * test_cases.length`; the entry at position
`mi * test_cases.length + ti` is exactly the result of unit
`(models[mi], test case ti)` (one result per pair, in enumeration order,
independent of completion order and of every sibling's outcome); and every
entry is either an error-bearing TestResult (an error string, no response,
no match result) or a successful one (a response, no error), so a failed
unit appears in the list rather than aborting or removing any sibling. -/
theorem c1_run_all_complete_ordered (llm : LLMJudge) (rx : RegexEngine)
    (api : ModelAPI) (r : PromptRunner) (config : PromptConfig)
    (models : List String) (sched : List Nat)
    (hne : 0 < config.test_cases.length)
    (hperm : sched.Perm
      (List.range (models.length * config.test_cases.length))) :
    run_all llm rx api r config models sched =
      unitTasks llm rx api r config models
    ∧ (run_all llm rx api r config models sched).length =
        models.length * config.test_cases.length
    ∧ (∀ (mi ti : Nat) (hm : mi < models.length)
        (ht : ti < config.test_cases.length),
        (run_all llm rx api r config models sched).get?
            (mi * config.test_cases.length + ti) =
          some (_run_single_test llm rx api r config (models.get ⟨mi, hm⟩) ti
            (config.test_cases.get ⟨ti, ht⟩)))
    ∧ ∀ res ∈ run_all llm rx api r config models sched,
        (res.error.isSome = true ∧ res.response = none ∧
          res.match_result = none)
        ∨ (res.error = none ∧ res.response.isSome = true) := by
  have heq : run_all llm rx api r config models sched =
      unitTasks llm rx api r config models := by
    unfold run_all
    apply gatherSched_perm
    rw [unitTasks_length]
    exact hperm
  refine ⟨heq, ?_, ?_, ?_⟩
  · rw [heq, unitTasks_length]
  · intro mi ti hm ht
    rw [heq]
    exact unitTasks_get? llm rx api r config models mi ti hm ht
  · intro res hres
    rw [heq] at hres
    unfold unitTasks at hres
    rw [List.mem_join] at hres
    obtain ⟨l, hl, hresl⟩ := hres
    rw [List.mem_map] at hl
    obtain ⟨m, _, rfl⟩ := hl
    rw [List.mem_map] at hresl
    obtain ⟨p, _, rfl⟩ := hresl
    exact _run_single_test_shape llm rx api r config m p.1 p.2

/-- Witness for C1: two models, two test cases and a completion schedule in
which unit 2 finishes first and unit 1 last still produce exactly
2 * 2 = 4 results. -/
theorem c1_run_all_witness :
    (run_all ⟨false, fun _ _ => .error ⟨"", ""⟩⟩ ⟨fun _ _ _ => .ok none⟩
        ⟨fun _ _ _ _ _ => .ok "hi" none none none 0⟩ ⟨10, 30⟩
        { name := "cfg", prompt := "p",
          test_cases := [{ inputs := [], expected := "X" },
            { inputs := [], expected := "Y" }] }
        ["m1", "m2"] [2, 0, 3, 1]).length = 2 * 2 := by
  have h := (c1_run_all_complete_ordered ⟨false, fun _ _ => .error ⟨"", ""⟩⟩
    ⟨fun _ _ _ => .ok none⟩ ⟨fun _ _ _ _ _ => .ok "hi" none none none 0⟩
    ⟨10, 30⟩
    { name := "cfg", prompt := "p",
      test_cases := [{ inputs := [], expected := "X" },
        { inputs := [], expected := "Y" }] }
    ["m1", "m2"] [2, 0, 3, 1] (by decide) (by decide)).2.1
  simpa using h

theorem tryParseVar_none_of_head_ne {c : Char} (cs : List Char)
    (h : ¬c = '{') : tryParseVar (c :: cs) = none := by
  cases cs with
  | nil => rfl
  | cons c2 rest =>
    simp [tryParseVar, h]

theorem findVars_skip {c : Char} {cs : List Char} (h : ¬c = '{') :
    findVars (c :: cs) = findVars cs :=
  findVars_cons_none (tryParseVar_none_of_head_ne cs h)

theorem findVars_append_no_brace :
    ∀ (l r : List Char), (∀ c ∈ l, ¬c = '{') →
      findVars (l ++ r) = findVars r := by
  intro l
  induction l with
  | nil => intro r _; rfl
  | cons c l' ih =>
    intro r h
    rw [List.cons_append, findVars_skip (h c (by simp))]
    exact ih r (fun d hd => h d (by simp [hd]))

theorem findVars_no_brace (l : List Char) (h : ∀ c ∈ l, ¬c = '{') :
    findVars l = [] := by
  have := findVars_append_no_brace l [] h
  rwa [List.append_nil] at this

theorem takeWhile_word_append (n : List Char) (hw : ∀ c ∈ n, isWordChar c = true)
    (r : List Char) :
    (n ++ '}' :: r).takeWhile isWordChar = n ∧
      (n ++ '}' :: r).dropWhile isWordChar = '}' :: r := by
  have hbrace : isWordChar '}' = false := by decide
  induction n with
  | nil =>
    constructor
    · rw [List.nil_append, List.takeWhile_cons, hbrace]
      rfl
    · rw [List.nil_append, List.dropWhile_cons, hbrace]
      rfl
  | cons c n' ih =>
    have hc : isWordChar c = true := hw c (by simp)
    obtain ⟨iht, ihd⟩ := ih (fun d hd => hw d (by simp [hd]))
    constructor
    · rw [List.cons_append, List.takeWhile_cons, hc]
      simp only [iht, if_true]
    · rw [List.cons_append, List.dropWhile_cons, hc]
      simp only [ihd, if_true]

theorem tryParseVar_var (n : List Char) (hn : n ≠ [])
    (hw : ∀ c ∈ n, isWordChar c = true) (r : List Char) :
    tryParseVar ('{' :: '{' :: (n ++ '}' :: '}' :: r)) = some (String.mk n, r) := by
  obtain ⟨ht, hd⟩ := takeWhile_word_append n hw ('}' :: r)
  show (if ('{' : Char) = '{' ∧ ('{' : Char) = '{' then
      match List.dropWhile isWordChar (n ++ '}' :: '}' :: r) with
      | d1 :: d2 :: tail =>
        if d1 = '}' ∧ d2 = '}' ∧
            List.takeWhile isWordChar (n ++ '}' :: '}' :: r) ≠ [] then
          some (String.mk (List.takeWhile isWordChar (n ++ '}' :: '}' :: r)), tail)
        else none
      | _ => none
    else none) = some (String.mk n, r)
  rw [if_pos ⟨rfl, rfl⟩, hd, ht]
  show (if ('}' : Char) = '}' ∧ ('}' : Char) = '}' ∧ n ≠ [] then
      some (String.mk n, r) else none) = some (String.mk n, r)
  rw [if_pos ⟨rfl, rfl, hn⟩]

theorem findVars_var (n : List Char) (hn : n ≠ [])
    (hw : ∀ c ∈ n, isWordChar c = true) (r : List Char) :
    findVars ('{' :: '{' :: (n ++ '}' :: '}' :: r)) =
      String.mk n :: findVars r :=
  findVars_cons_some (tryParseVar_var n hn hw r)

theorem renderLoop_first_missing (inputs : List (String × String)) (m : String) :
    ∀ (vs : List String) (result : List Char),
      vs.find? (fun v => (dictGet inputs v).isNone) = some m →
      renderLoop inputs vs result =
        .error { ename := "ValueError", msg := mveMsg m } := by
  intro vs
  induction vs with
  | nil => intro result h; cases h
  | cons v rest ih =>
    intro result h
    by_cases hv : (dictGet inputs v).isNone = true
    · rw [List.find?_cons_of_pos (p := fun v => (dictGet inputs v).isNone) _ hv]
        at h
      cases h
      rw [Option.isNone_iff_eq_none] at hv
      show (match dictGet inputs m with
        | none => Except.error (PyErr.mk "ValueError" (mveMsg m))
        | some value =>
            renderLoop inputs rest (replaceAll result (phChars m) value.data)) =
        Except.error (PyErr.mk "ValueError" (mveMsg m))
      rw [hv]
    · rw [List.find?_cons_of_neg (p := fun v => (dictGet inputs v).isNone) _ hv]
        at h
      rw [Option.isNone_iff_eq_none] at hv
      push_neg at hv
      obtain ⟨value, hval⟩ := Option.ne_none_iff_exists'.mp hv
      show (match dictGet inputs v with
        | none => Except.error (PyErr.mk "ValueError" (mveMsg v))
        | some value =>
            renderLoop inputs rest (replaceAll result (phChars v) value.data)) =
        Except.error (PyErr.mk "ValueError" (mveMsg m))
      rw [hval]
      exact ih _ h

/-- C7: When some placeholder of the template has no key in the inputs,
`render_prompt` fails with a ValueError naming the first unresolved
placeholder in scan order (the first found variable whose lookup is
empty), with the message `Variable <name> not found in inputs`. -/
theorem c7_missing_variable_error (template : String)
    (inputs : List (String × String)) (m : String)
    (h : (findVars template.data).find?
      (fun v => (dictGet inputs v).isNone) = some m) :
    render_prompt template inputs =
      .error { ename := "ValueError", msg := mveMsg m } := by
  unfold render_prompt
  rw [renderLoop_first_missing inputs m (findVars template.data) template.data h]
  rfl

/-- Witness for C7 at the spec's own example: rendering
`Hello \x7b\x7bname\x7d\x7d, you are \x7b\x7bage\x7d\x7d years old.` with
only `name` bound fails naming `age`. -/
theorem c7_missing_variable_witness :
    render_prompt "Hello \x7b\x7bname\x7d\x7d, you are \x7b\x7bage\x7d\x7d years old."
        [("name", "Charlie")] =
      .error { ename := "ValueError",
               msg := "Variable 'age' not found in inputs" } := by
  have h := c7_missing_variable_error
    "Hello \x7b\x7bname\x7d\x7d, you are \x7b\x7bage\x7d\x7d years old."
    [("name", "Charlie")] "age" rfl
  rw [h]
  rfl

/-- C8 (counterexample to the claim as stated): every placeholder of the
template `\x7b\x7ba\x7d\x7d` (namely `a`) is present in the inputs, yet the
rendered output `\x7b\x7bb\x7d\x7d` still contains double-brace placeholder
syntax — the code's own placeholder scanner finds the placeholder `b` in
it — because a substituted value may itself introduce delimiter syntax and
no escaping is performed. -/
theorem c8_counterexample :
    render_prompt "\x7b\x7ba\x7d\x7d" [("a", "\x7b\x7bb\x7d\x7d")] =
        .ok "\x7b\x7bb\x7d\x7d"
    ∧ findVars ("\x7b\x7bb\x7d\x7d".data) = ["b"] := ⟨rfl, rfl⟩

/-- A well-formed template token: a literal segment with no opening brace,
or a placeholder with a nonempty word-character name. -/
inductive Tok where
  | lit (s : String)
  | var (n : String)
  deriving DecidableEq, Repr

/-- The text of one token: a literal's characters, or `\x7b\x7bname\x7d\x7d`. -/
def Tok.flat : Tok → List Char
  | .lit s => s.data
  | .var n => phChars n

/-- The template text of a token list. -/
def flatToks (ts : List Tok) : List Char := (ts.map Tok.flat).flatten

/-- A string with no opening brace character. -/
def braceFree (s : String) : Bool := s.data.all (fun c => !(c == '{'))

/-- A valid placeholder name: nonempty, all word characters. -/
def wordName (n : String) : Bool := !n.data.isEmpty && n.data.all isWordChar

/-- Well-formedness of one token. -/
def wfTok : Tok → Bool
  | .lit s => braceFree s
  | .var n => wordName n

/-- The placeholder names of a token list, in order, with multiplicity. -/
def varNames : List Tok → List String
  | [] => []
  | .lit _ :: ts => varNames ts
  | .var n :: ts => n :: varNames ts

/-- Substitution of one resolved placeholder: every `var n` token becomes
the literal value; all other tokens are unchanged. -/
def substTok (n v : String) : List Tok → List Tok :=
  List.map (fun t => match t with
    | .var m => if m = n then Tok.lit v else Tok.var m
    | t => t)

/-- Substitution of every placeholder by its input value. -/
def applySubst (inputs : List (String × String)) : List Tok → List Tok :=
  List.map (fun t => match t with
    | .var m => Tok.lit ((dictGet inputs m).getD "")
    | t => t)

theorem braceFree_chars {s : String} (h : braceFree s = true) :
    ∀ c ∈ s.data, ¬c = '{' := by
  intro c hc
  have := List.all_eq_true.mp h c hc
  simpa using this

theorem wordName_chars {n : String} (h : wordName n = true) :
    n.data ≠ [] ∧ ∀ c ∈ n.data, isWordChar c = true := by
  unfold wordName at h
  rw [Bool.and_eq_true] at h
  constructor
  · intro hc
    rw [hc] at h
    simp at h
  · exact fun c hc => List.all_eq_true.mp h.2 c hc

theorem wordChar_ne_brace {c : Char} (h : isWordChar c = true) : ¬c = '{' := by
  intro hc
  rw [hc] at h
  exact absurd h (by decide)

theorem wordChar_ne_close {c : Char} (h : isWordChar c = true) : ¬c = '}' := by
  intro hc
  rw [hc] at h
  exact absurd h (by decide)

/-- Scanning a well-formed token list finds exactly its placeholder names,
in order. -/
theorem findVars_flatToks :
    ∀ ts : List Tok, (∀ t ∈ ts, wfTok t = true) →
      findVars (flatToks ts) = varNames ts := by
  intro ts
  induction ts with
  | nil => intro _; rfl
  | cons t ts ih =>
    intro h
    have hts : ∀ u ∈ ts, wfTok u = true := fun u hu => h u (by simp [hu])
    have hhead := h t (by simp)
    cases t with
    | lit s =>
      show findVars (s.data ++ flatToks ts) = varNames ts
      rw [findVars_append_no_brace s.data (flatToks ts) (braceFree_chars hhead)]
      exact ih hts
    | var n =>
      obtain ⟨hn, hw⟩ := wordName_chars hhead
      show findVars (phChars n ++ flatToks ts) = n :: varNames ts
      have hshape : phChars n ++ flatToks ts =
          '{' :: '{' :: (n.data ++ '}' :: '}' :: flatToks ts) := by
        simp [phChars]
      rw [hshape, findVars_var n.data hn hw (flatToks ts)]
      rw [ih hts]

theorem leadsWith_append_self (pat r : List Char) :
    leadsWith (pat ++ r) pat = true :=
  leadsWith_iff.mpr (List.prefix_append pat r)

theorem replaceAll_append_no_brace (pat' rep : List Char) :
    ∀ (l r : List Char), (∀ c ∈ l, ¬c = '{') →
      replaceAll (l ++ r) ('{' :: pat') rep =
        l ++ replaceAll r ('{' :: pat') rep := by
  intro l
  induction l with
  | nil => intro r _; rfl
  | cons c l' ih =>
    intro r h
    have hc : ¬c = '{' := h c (by simp)
    have hlw : leadsWith (c :: (l' ++ r)) ('{' :: pat') = false := by
      show (c == '{' && leadsWith (l' ++ r) pat') = false
      have hb : (c == '{') = false := by simpa using hc
      rw [hb, Bool.false_and]
    rw [List.cons_append,
      replaceAll_neg rep (fun hcon => absurd hcon.2 (by simp [hlw]))]
    rw [ih r (fun d hd => h d (by simp [hd])), List.cons_append]

theorem leadsWith_ph_ne :
    ∀ (m n r : List Char), (∀ c ∈ m, isWordChar c = true) →
      (∀ c ∈ n, isWordChar c = true) → ¬m = n →
      leadsWith (m ++ '}' :: '}' :: r) (n ++ ['}', '}']) = false := by
  intro m
  induction m with
  | nil =>
    intro n r _ hn hne
    cases n with
    | nil => exact absurd rfl hne
    | cons d n' =>
      show (('}' : Char) == d && leadsWith ('}' :: r) (n' ++ ['}', '}'])) = false
      have hd : ¬('}' : Char) = d := fun hc =>
        wordChar_ne_close (hn d (by simp)) hc.symm
      have hb : (('}' : Char) == d) = false := by simpa using hd
      rw [hb, Bool.false_and]
  | cons c m' ih =>
    intro n r hm hn hne
    cases n with
    | nil =>
      show (c == '}' && leadsWith (m' ++ '}' :: '}' :: r) ['}']) = false
      have hb : (c == '}') = false := by
        simpa using wordChar_ne_close (hm c (by simp))
      rw [hb, Bool.false_and]
    | cons d n' =>
      show (c == d && leadsWith (m' ++ '}' :: '}' :: r) (n' ++ ['}', '}'])) = false
      by_cases hcd : c = d
      · subst hcd
        have hne' : ¬m' = n' := fun hc => hne (by rw [hc])
        rw [ih n' r (fun x hx => hm x (by simp [hx]))
          (fun x hx => hn x (by simp [hx])) hne', Bool.and_false]
      · have hb : (c == d) = false := by simpa using hcd
        rw [hb, Bool.false_and]

theorem string_data_ne {m n : String} (h : ¬m = n) : ¬m.data = n.data :=
  fun hc => h (congrArg String.mk hc)

/-- Replacing one placeholder's text in the flattened form of a well-formed
token list is exactly token-level substitution: each `var n` token's text
becomes the value, everything else is untouched. -/
theorem replaceAll_flatToks (n v : String) (hn : wordName n = true) :
    ∀ ts : List Tok, (∀ t ∈ ts, wfTok t = true) →
      replaceAll (flatToks ts) (phChars n) v.data =
        flatToks (substTok n v ts) := by
  obtain ⟨hnne, hnw⟩ := wordName_chars hn
  intro ts
  induction ts with
  | nil => intro _; rfl
  | cons t ts ih =>
    intro h
    have hts : ∀ u ∈ ts, wfTok u = true := fun u hu => h u (by simp [hu])
    have hhead := h t (by simp)
    cases t with
    | lit s =>
      have hstep : replaceAll (s.data ++ flatToks ts) (phChars n) v.data =
          s.data ++ replaceAll (flatToks ts) (phChars n) v.data :=
        replaceAll_append_no_brace ('{' :: (n.data ++ ['}', '}'])) v.data
          s.data (flatToks ts) (braceFree_chars hhead)
      show replaceAll (s.data ++ flatToks ts) (phChars n) v.data =
        s.data ++ flatToks (substTok n v ts)
      rw [hstep, ih hts]
    | var m =>
      obtain ⟨hmne, hmw⟩ := wordName_chars hhead
      by_cases hmn : m = n
      · subst hmn
        have hsub : flatToks (substTok m v (Tok.var m :: ts)) =
            v.data ++ flatToks (substTok m v ts) := by
          simp [substTok, flatToks, Tok.flat]
        have hstep : replaceAll (phChars m ++ flatToks ts) (phChars m) v.data =
            v.data ++ replaceAll ((phChars m ++ flatToks ts).drop
              (phChars m).length) (phChars m) v.data :=
          replaceAll_pos v.data (by simp [phChars])
            (leadsWith_append_self (phChars m) (flatToks ts))
        show replaceAll (phChars m ++ flatToks ts) (phChars m) v.data =
          flatToks (substTok m v (Tok.var m :: ts))
        rw [hstep, hsub, List.drop_left, ih hts]
      · have hsub : flatToks (substTok n v (Tok.var m :: ts)) =
            phChars m ++ flatToks (substTok n v ts) := by
          simp [substTok, flatToks, Tok.flat, hmn]
        have hflat : flatToks (Tok.var m :: ts) =
            '{' :: '{' :: (m.data ++ '}' :: '}' :: flatToks ts) := by
          simp [flatToks, Tok.flat, phChars]
        have hcore : leadsWith (m.data ++ '}' :: '}' :: flatToks ts)
            (n.data ++ ['}', '}']) = false :=
          leadsWith_ph_ne m.data n.data (flatToks ts) hmw hnw
            (string_data_ne hmn)
        have h1 : leadsWith ('{' :: '{' :: (m.data ++ '}' :: '}' :: flatToks ts))
            (phChars n) = false := by
          show (('{' : Char) == '{' && (('{' : Char) == '{' &&
            leadsWith (m.data ++ '}' :: '}' :: flatToks ts)
              (n.data ++ ['}', '}']))) = false
          rw [hcore, Bool.and_false, Bool.and_false]
        have h2 : leadsWith ('{' :: (m.data ++ '}' :: '}' :: flatToks ts))
            (phChars n) = false := by
          cases hmd : m.data with
          | nil => exact absurd hmd hmne
          | cons d m2 =>
            have hd : ¬d = '{' :=
              wordChar_ne_brace (hmw d (by rw [hmd]; simp))
            have hb : (d == '{') = false := by simpa using hd
            show (('{' : Char) == '{' && (d == '{' &&
              leadsWith (m2 ++ '}' :: '}' :: flatToks ts)
                (n.data ++ ['}', '}']))) = false
            rw [hb, Bool.false_and, Bool.and_false]
        have hstep1 : replaceAll
            ('{' :: '{' :: (m.data ++ '}' :: '}' :: flatToks ts))
            (phChars n) v.data =
            '{' :: replaceAll ('{' :: (m.data ++ '}' :: '}' :: flatToks ts))
              (phChars n) v.data :=
          replaceAll_neg v.data (fun hcon => absurd hcon.2 (by simp [h1]))
        have hstep2 : replaceAll
            ('{' :: (m.data ++ '}' :: '}' :: flatToks ts))
            (phChars n) v.data =
            '{' :: replaceAll (m.data ++ '}' :: '}' :: flatToks ts)
              (phChars n) v.data :=
          replaceAll_neg v.data (fun hcon => absurd hcon.2 (by simp [h2]))
        have hfree : ∀ c ∈ m.data ++ ['}', '}'], ¬c = '{' := by
          intro c hc hcb
          subst hcb
          rcases List.mem_append.mp hc with hc2 | hc2
          · exact wordChar_ne_brace (hmw _ hc2) rfl
          · simp at hc2
        have hassoc : m.data ++ '}' :: '}' :: flatToks ts =
            (m.data ++ ['}', '}']) ++ flatToks ts := by simp
        have hstep3 : replaceAll ((m.data ++ ['}', '}']) ++ flatToks ts)
            (phChars n) v.data =
            (m.data ++ ['}', '}']) ++ replaceAll (flatToks ts) (phChars n)
              v.data :=
          replaceAll_append_no_brace ('{' :: (n.data ++ ['}', '}'])) v.data
            (m.data ++ ['}', '}']) (flatToks ts) hfree
        rw [hflat, hstep1, hstep2, hassoc, hstep3, ih hts, hsub]
        simp [phChars]

/-- Pointwise substitution of one resolved placeholder. -/
def substOne (inputs : List (String × String)) (nm : String) : Tok → Tok
  | .var m => if m = nm then Tok.lit ((dictGet inputs nm).getD "") else .var m
  | t => t

/-- The sequence of substitutions `render_prompt`'s loop performs, at the
token level. -/
def substFold (inputs : List (String × String)) (names : List String)
    (cur : List Tok) : List Tok :=
  names.foldl (fun acc nm => substTok nm ((dictGet inputs nm).getD "") acc) cur

theorem substTok_eq_map (inputs : List (String × String)) (nm : String)
    (cur : List Tok) :
    substTok nm ((dictGet inputs nm).getD "") cur =
      cur.map (substOne inputs nm) := by
  unfold substTok
  apply List.map_congr_left
  intro t _
  cases t <;> rfl

theorem wf_substTok (nm val : String) (hv : braceFree val = true)
    (cur : List Tok) (h : ∀ t ∈ cur, wfTok t = true) :
    ∀ t ∈ substTok nm val cur, wfTok t = true := by
  intro t ht
  rw [substTok, List.mem_map] at ht
  obtain ⟨u, hu, rfl⟩ := ht
  have hwu := h u hu
  cases u with
  | lit s => exact hwu
  | var m =>
    show wfTok (if m = nm then Tok.lit val else Tok.var m) = true
    by_cases hmn : m = nm
    · rw [if_pos hmn]
      exact hv
    · rw [if_neg hmn]
      exact hwu

theorem renderLoop_flatToks (inputs : List (String × String)) :
    ∀ (names : List String) (cur : List Tok),
      (∀ t ∈ cur, wfTok t = true) →
      (∀ nm ∈ names, ∃ val, dictGet inputs nm = some val ∧
        braceFree val = true) →
      (∀ nm ∈ names, wordName nm = true) →
      renderLoop inputs names (flatToks cur) =
        .ok (flatToks (substFold inputs names cur)) := by
  intro names
  induction names with
  | nil => intro cur _ _ _; rfl
  | cons nm rest ih =>
    intro cur hcur hvals hword
    obtain ⟨val, hval, hvfree⟩ := hvals nm (by simp)
    show (match dictGet inputs nm with
      | none => Except.error (PyErr.mk "ValueError" (mveMsg nm))
      | some value =>
          renderLoop inputs rest
            (replaceAll (flatToks cur) (phChars nm) value.data)) =
      Except.ok (flatToks (substFold inputs (nm :: rest) cur))
    rw [hval]
    show renderLoop inputs rest
      (replaceAll (flatToks cur) (phChars nm) val.data) = _
    rw [replaceAll_flatToks nm val (hword nm (by simp)) cur hcur]
    have hstep : substFold inputs (nm :: rest) cur =
        substFold inputs rest (substTok nm val cur) := by
      show substFold inputs rest
        (substTok nm ((dictGet inputs nm).getD "") cur) = _
      rw [hval]
      rfl
    rw [hstep]
    exact ih (substTok nm val cur) (wf_substTok nm val hvfree cur hcur)
      (fun x hx => hvals x (by simp [hx]))
      (fun x hx => hword x (by simp [hx]))

theorem foldl_map_exchange (inputs : List (String × String)) :
    ∀ (names : List String) (cur : List Tok),
      names.foldl (fun acc nm => acc.map (substOne inputs nm)) cur =
        cur.map (fun t => names.foldl (fun t nm => substOne inputs nm t) t) := by
  intro names
  induction names with
  | nil =>
    intro cur
    simp
  | cons nm rest ih =>
    intro cur
    rw [List.foldl_cons, ih, List.map_map]
    rfl

theorem foldl_substOne_lit (inputs : List (String × String)) (s : String) :
    ∀ names : List String,
      names.foldl (fun t nm => substOne inputs nm t) (Tok.lit s) = Tok.lit s := by
  intro names
  induction names with
  | nil => rfl
  | cons nm rest ih => exact ih

theorem foldl_substOne_var (inputs : List (String × String)) :
    ∀ (names : List String) (m : String), m ∈ names →
      names.foldl (fun t nm => substOne inputs nm t) (Tok.var m) =
        Tok.lit ((dictGet inputs m).getD "") := by
  intro names
  induction names with
  | nil => intro m hm; cases hm
  | cons nm rest ih =>
    intro m hm
    rw [List.foldl_cons]
    by_cases hmn : m = nm
    · subst hmn
      show rest.foldl (fun t nm => substOne inputs nm t)
        (if m = m then Tok.lit ((dictGet inputs m).getD "") else Tok.var m) = _
      rw [if_pos rfl]
      exact foldl_substOne_lit inputs _ rest
    · show rest.foldl (fun t nm => substOne inputs nm t)
        (if m = nm then Tok.lit ((dictGet inputs nm).getD "") else Tok.var m) = _
      rw [if_neg hmn]
      refine ih m ?_
      rcases List.mem_cons.mp hm with h | h
      · exact absurd h hmn
      · exact h

theorem mem_varNames_iff : ∀ (ts : List Tok) (m : String),
    m ∈ varNames ts ↔ Tok.var m ∈ ts := by
  intro ts
  induction ts with
  | nil => intro m; simp [varNames]
  | cons t ts ih =>
    intro m
    cases t with
    | lit s =>
      show m ∈ varNames ts ↔ _
      rw [ih m]
      constructor
      · intro h; exact List.mem_cons_of_mem _ h
      · intro h
        rcases List.mem_cons.mp h with h | h
        · cases h
        · exact h
    | var n =>
      show m ∈ n :: varNames ts ↔ _
      rw [List.mem_cons, List.mem_cons, ih m]
      constructor
      · rintro (h | h)
        · exact Or.inl (by rw [h])
        · exact Or.inr h
      · rintro (h | h)
        · exact Or.inl (by cases h; rfl)
        · exact Or.inr h

theorem substFold_varNames (inputs : List (String × String)) (ts : List Tok) :
    substFold inputs (varNames ts) ts = applySubst inputs ts := by
  unfold substFold
  have hrw : (fun (acc : List Tok) (nm : String) =>
      substTok nm ((dictGet inputs nm).getD "") acc) =
      fun acc nm => acc.map (substOne inputs nm) := by
    funext acc nm
    exact substTok_eq_map inputs nm acc
  rw [hrw, foldl_map_exchange inputs (varNames ts) ts]
  unfold applySubst
  apply List.map_congr_left
  intro t ht
  cases t with
  | lit s => exact foldl_substOne_lit inputs s (varNames ts)
  | var m =>
    rw [foldl_substOne_var inputs (varNames ts) m
      ((mem_varNames_iff ts m).mpr ht)]

/-- C8 (amended): for templates that are concatenations of brace-free
literal segments and well-formed placeholders, with every placeholder
present in the inputs and every substituted value brace-free, rendering
succeeds and equals the token-level substitution — every occurrence of
each placeholder replaced by its literal stringified value in place, with
no escaping and no recursive expansion (`applySubst` maps each placeholder
token to its value verbatim and leaves literals untouched) — and the
output contains no residual double-brace delimiter syntax (the code's own
placeholder scanner finds nothing in it). Determinism is inherent: the
embedded `render_prompt` is a pure function. -/
theorem c8_wf_template_render (ts : List Tok) (inputs : List (String × String))
    (hwf : ∀ t ∈ ts, wfTok t = true)
    (hvals : ∀ nm : String, Tok.var nm ∈ ts →
      ∃ val, dictGet inputs nm = some val ∧ braceFree val = true) :
    render_prompt (String.mk (flatToks ts)) inputs =
      .ok (String.mk (flatToks (applySubst inputs ts)))
    ∧ findVars (flatToks (applySubst inputs ts)) = [] := by
  have hnames_word : ∀ nm ∈ varNames ts, wordName nm = true := fun nm hnm =>
    hwf _ ((mem_varNames_iff ts nm).mp hnm)
  have hnames_vals : ∀ nm ∈ varNames ts,
      ∃ val, dictGet inputs nm = some val ∧ braceFree val = true :=
    fun nm hnm => hvals nm ((mem_varNames_iff ts nm).mp hnm)
  constructor
  · show (renderLoop inputs (findVars (String.mk (flatToks ts)).data)
      (String.mk (flatToks ts)).data).map String.mk = _
    rw [show (String.mk (flatToks ts)).data = flatToks ts from rfl]
    rw [findVars_flatToks ts hwf]
    rw [renderLoop_flatToks inputs (varNames ts) ts hwf hnames_vals hnames_word]
    rw [substFold_varNames]
    rfl
  · apply findVars_no_brace
    intro c hc
    unfold flatToks at hc
    obtain ⟨l, hl, hcl⟩ := List.mem_join.mp hc
    rw [List.mem_map] at hl
    obtain ⟨u, hu, rfl⟩ := hl
    unfold applySubst at hu
    rw [List.mem_map] at hu
    obtain ⟨t0, ht0, rfl⟩ := hu
    cases t0 with
    | lit s => exact braceFree_chars (hwf _ ht0) c hcl
    | var m =>
      obtain ⟨val, hval, hvfree⟩ := hvals m ht0
      have hcl2 : c ∈ ((dictGet inputs m).getD "").data := hcl
      rw [hval] at hcl2
      exact braceFree_chars hvfree c hcl2

/-- Witness for C8's amended claim: the template `Hello \x7b\x7bname\x7d\x7d!`
(a literal, a placeholder, a literal) with input name=Charlie renders to
`Hello Charlie!`, and the scanner finds no placeholder left in the output. -/
theorem c8_wf_template_render_witness :
    render_prompt "Hello \x7b\x7bname\x7d\x7d!" [("name", "Charlie")] =
        .ok "Hello Charlie!"
    ∧ findVars ("Hello Charlie!".data) = [] := by
  have h := c8_wf_template_render
    [Tok.lit "Hello ", Tok.var "name", Tok.lit "!"]
    [("name", "Charlie")]
    (by decide)
    (fun nm hnm => by
      have : nm = "name" := by
        rcases List.mem_cons.mp hnm with h1 | h1
        · cases h1
        · rcases List.mem_cons.mp h1 with h2 | h2
          · cases h2; rfl
          · rcases List.mem_cons.mp h2 with h3 | h3
            · cases h3
            · cases h3
      subst this
      exact ⟨"Charlie", rfl, by decide⟩)
  obtain ⟨h1, h2⟩ := h
  constructor
  · rw [show ("Hello \x7b\x7bname\x7d\x7d!" : String) =
      String.mk (flatToks [Tok.lit "Hello ", Tok.var "name", Tok.lit "!"])
      from rfl]
    rw [h1]
    rfl
  · rw [show ("Hello Charlie!".data) =
      flatToks (applySubst [("name", "Charlie")]
        [Tok.lit "Hello ", Tok.var "name", Tok.lit "!"]) from rfl]
    exact h2
